import Mathlib

set_option maxRecDepth 16000

/-!
Verification of the kqlalchemy dialect adapter (a SQLAlchemy dialect for
Azure Data Explorer / Kusto) against its natural-language specification.

The source files `src/kqlalchemy/__init__.py`, `src/kqlalchemy/base.py` and
`src/kqlalchemy/kql_dialect.py` are shallowly embedded below: pure Python
functions become Lean functions on `List Char` / `List Nat`; Python operations
that can raise (`struct.pack` overflow, list indexing) return `Option`;
the two external backing systems (the ODBC information-schema bridge and the
Kusto management-command client) are modelled by the row lists they return.
-/

/-! ## UTF-16-LE encoding and token packing (`_encode_token` in base.py,
inlined in `get_token` in `__init__.py`) -/

/-- One Unicode code point encoded as UTF-16-LE bytes. Python's
`str.encode("utf-16-le")` emits two little-endian bytes for code points below
0x10000 and a little-endian surrogate pair (four bytes) above. -/
def utf16Bytes (c : Char) : List Nat :=
  let v := c.toNat
  if v < 0x10000 then [v % 256, v / 256]
  else
    let w := v - 0x10000
    let hi := 0xD800 + w / 0x400
    let lo := 0xDC00 + w % 0x400
    [hi % 256, hi / 256, lo % 256, lo / 256]

/-- `token.encode("utf-16-le")`: the byte string of a Python `str`. -/
def utf16le (s : List Char) : List Nat := (s.map utf16Bytes).flatten

/-- The `<I` format of `struct.pack`: a 4-byte little-endian unsigned integer.
`struct.pack` raises `struct.error` when the value does not fit, so the result
is an `Option`. -/
def packU32LE (n : Nat) : Option (List Nat) :=
  if n < 2 ^ 32 then some [n % 256, n / 2 ^ 8 % 256, n / 2 ^ 16 % 256, n / 2 ^ 24 % 256]
  else none

/-- The `{n}s` format of `struct.pack`: the byte argument truncated or
zero-padded to exactly `n` bytes. -/
def packBytesFixed (n : Nat) (raw : List Nat) : List Nat :=
  raw.take n ++ List.replicate (n - raw.length) 0

/-- `struct.pack(f"<I{n}s", n, raw)`. -/
def structPackIs (n : Nat) (raw : List Nat) : Option (List Nat) :=
  (packU32LE n).map (fun hd => hd ++ packBytesFixed n raw)

def SQL_COPT_SS_ACCESS_TOKEN : Nat := 1256

/-- `_encode_token` (base.py lines 36-40; the same code is inlined in
`get_token`, `__init__.py` lines 15-21):

    raw_token = token.encode("utf-16-le")
    token_struct = struct.pack(f"<I{len(raw_token)}s", len(raw_token), raw_token)
    return {SQL_COPT_SS_ACCESS_TOKEN: token_struct}

The returned singleton dict is modelled as the (key, bytes) pair. -/
def encode_token (token : List Char) : Option (Nat × List Nat) :=
  let raw_token := utf16le token
  (structPackIs raw_token.length raw_token).map
    (fun token_struct => (SQL_COPT_SS_ACCESS_TOKEN, token_struct))

/-! ## The `do_connect` listener installed by `get_engine`
(`provide_token`, base.py lines 51-57 and `__init__.py` lines 31-36) -/

/-- Python `str.replace(pat, repl)`: replace every non-overlapping occurrence
of `pat`, scanning left to right. -/
def replaceAll (pat repl : List Char) : List Char → List Char
  | [] => []
  | c :: rest =>
    if pat ≠ [] ∧ pat.isPrefixOf (c :: rest) then
      repl ++ replaceAll pat repl (List.drop (pat.length - 1) rest)
    else
      c :: replaceAll pat repl rest
termination_by s => s.length
decreasing_by
  · simp only [List.length_cons, List.length_drop]
    omega
  · simp only [List.length_cons]
    omega

/-- A value stored in the `cparams` keyword-argument dict of `do_connect`:
either the packed token dict or any other (opaque) value. -/
inductive ParamValue where
  | tokenDict (key : Nat) (bytes : List Nat)
  | opaqueVal (n : Nat)
deriving DecidableEq

abbrev Params := List (String × ParamValue)

/-- Python dict lookup `d.get(k)` over the insertion-ordered pair list. -/
def lookupParam (ps : Params) (k : String) : Option ParamValue :=
  match ps with
  | [] => none
  | (k', v) :: rest => if k' = k then some v else lookupParam rest k

/-- Python dict assignment `d[k] = v`: overwrite in place when the key exists,
otherwise append. -/
def setParam (ps : Params) (k : String) (v : ParamValue) : Params :=
  match ps with
  | [] => [(k, v)]
  | (k', v') :: rest => if k' = k then (k', v) :: rest else (k', v') :: setParam rest k v

def trustedConnectionPat : List Char := ";Trusted_Connection=Yes".toList

/-- The `do_connect` listener `provide_token` installed by `get_engine`
(base.py lines 51-57; identically `__init__.py` lines 31-36, where the token
dict is computed by `get_token`):

    cargs[0] = cargs[0].replace(";Trusted_Connection=Yes", "")
    cparams["attrs_before"] = _encode_token(token)

`none` models the Python exception when `cargs` is empty (IndexError) or the
token does not pack. -/
def provide_token (token : List Char) (cargs : List (List Char)) (cparams : Params) :
    Option (List (List Char) × Params) :=
  match cargs with
  | [] => none
  | a :: rest =>
    match encode_token token with
    | none => none
    | some d =>
      some (replaceAll trustedConnectionPat [] a :: rest,
            setParam cparams "attrs_before" (ParamValue.tokenDict d.1 d.2))

/-! ## Backing-system model and the constant reflection hooks -/

/-- A row of the information-schema `tables` view as the ODBC bridge reports it. -/
structure TableRow where
  table_name : List Char
  table_type : List Char
  table_schema : List Char
deriving DecidableEq

/-- The observable state of the backing systems that the metadata-reflection
hooks could query: the information-schema catalog reachable through the
connection, and the analytics database's table list reachable through the
Kusto client. -/
structure BackingState where
  ischemaTables : List TableRow
  kustoTables : List (List Char)
deriving DecidableEq

structure PKConstraint where
  constrained_columns : List (List Char)
  name : Option (List Char)
deriving DecidableEq

/-- `get_pk_constraint` (base.py lines 63-64, identically kql_dialect.py):
`return {"constrained_columns": [], "name": None}` — it never queries the
connection. -/
def get_pk_constraint (_conn : BackingState) (_tablename : List Char) : PKConstraint :=
  { constrained_columns := [], name := none }

/-- `get_foreign_keys` (base.py lines 68-69, identically kql_dialect.py):
`return set()` — the empty set, modelled as `[]`. -/
def get_foreign_keys (_conn : BackingState) (_tablename : List Char) : List (List Char) := []

/-- `get_indexes` (base.py lines 73-74, identically kql_dialect.py):
`return set()` — the empty set, modelled as `[]`. -/
def get_indexes (_conn : BackingState) (_tablename : List Char) : List (List Char) := []

/-! ## `has_table` -/

/-- `has_table`, information-schema variant (base.py lines 143-162): select
`table_name` from the tables view where (`table_type = 'BASE TABLE'` or
`'VIEW'`) and `table_name = tablename`, adding `table_schema = owner` when
`owner` is truthy (Python `if owner:` — skipped for `None` and for the empty
string); the method returns `c.first() is not None`. The execution of the
select against the backing catalog is modelled as a filter over its rows. -/
def has_table_ischema (rows : List TableRow) (tablename : List Char)
    (owner : Option (List Char)) : Bool :=
  let base := rows.filter (fun (r : TableRow) =>
    (r.table_type == "BASE TABLE".toList || r.table_type == "VIEW".toList) &&
      r.table_name == tablename)
  let filtered :=
    match owner with
    | some o => if o ≠ [] then base.filter (fun (r : TableRow) => r.table_schema == o) else base
    | none => base
  filtered.head?.isSome

/-- `has_table`, management-command variant (kql_dialect.py lines 298-304):
the primary result of `.show tables | where TableName == '<tablename>'` is
modelled, following the spec's description of the backing engine, as the
database's table list filtered on that name; the method returns
`len(tbls) > 0`. -/
def has_table_kql (tables : List (List Char)) (tablename : List Char) : Bool :=
  let tbls := tables.filter (fun n => n == tablename)
  decide (0 < tbls.length)

/-! ## Column reflection (`get_columns` in base.py and kql_dialect.py,
`_get_columns` in kql_dialect.py) -/

/-- A SQLAlchemy type class as the reflection code observes it: an identity
`tag`, membership in the string/binary tuple tested by
`coltype in (MSString, MSChar, MSNVarchar, MSNChar, MSText, MSNText, MSBinary,
MSVarBinary, sqltypes.LargeBinary)`, and the results of
`issubclass(coltype, sqltypes.Numeric)` and `issubclass(coltype, sqltypes.Float)`.
The dialect's `ischema_names` dict (inherited unchanged from the external
MSDialect) is modelled as an abstract lookup `List Char → Option TypeClass`. -/
structure TypeClass where
  tag : Nat
  inStringTuple : Bool
  isNumericSub : Bool
  isFloatSub : Bool
deriving DecidableEq

/-- The keyword arguments passed to the type-class constructor
(`coltype(**kwargs)`). An outer `none` means the key is absent from the
`kwargs` dict; `some v` means it is present with value `v`, where an inner
`none` is Python's `None`. -/
structure TypeKwargs where
  length : Option (Option Nat) := none
  collation : Option (List Char) := none
  precision : Option (Option Nat) := none
  scale : Option (Option Nat) := none
deriving DecidableEq

/-- The `type` field of a reflected column: either the `sqltypes.NULLTYPE`
singleton or an instance `coltype(**kwargs)` of a looked-up class. -/
inductive ColType where
  | nulltype
  | inst (cls : TypeClass) (kwargs : TypeKwargs)
deriving DecidableEq

/-- The payload of `util.warn("Did not recognize type '%s' of column '%s'")`:
the `%s`-formatted type (`none` when the formatted value is Python `None`)
and the column name. -/
structure WarnMsg where
  typeRepr : Option (List Char)
  colName : List Char
deriving DecidableEq

/-- A column dict appended to `cols`. -/
structure ColDescriptor where
  name : List Char
  type : ColType
  nullable : Bool
  default : Option (List Char)
  autoincrement : Bool
deriving DecidableEq

/-- A fetched row of the information-schema `columns` query (the backing
engine has already filtered on the table name and ordered by ordinal
position). `numeric_precision` and `numeric_scale` may be SQL NULL. -/
structure IschemaColRow where
  column_name : List Char
  data_type : List Char
  ordinal_position : Nat
  numeric_precision : Option Nat
  numeric_scale : Option Nat
deriving DecidableEq

/-- The comparison `type_ == MSNVarchar` (base.py line 100 and
kql_dialect.py line 247): `type_` is the `data_type` string fetched from the
row while `MSNVarchar` is a class, so the Python `==` is always `False`. -/
def strEqMSNVarcharClass (_type_ : List Char) : Bool := false

def sqlLatinCollation : List Char := "SQL_Latin1_General_CP1_CS_AS".toList

/-- One iteration of the row loop of `KQLDialect.get_columns` in base.py
(lines 95-139): the optional warning emitted and the column dict produced. -/
def base_processRow (ischema_names : List Char → Option TypeClass)
    (row : IschemaColRow) : Option WarnMsg × ColDescriptor :=
  let name := row.column_name
  let type_ := row.data_type
  let numericprec := row.numeric_precision
  let numericscale := row.numeric_scale
  let collation := if strEqMSNVarcharClass type_ then some sqlLatinCollation else none
  let coltype := ischema_names type_
  let kwargs : TypeKwargs :=
    match coltype with
    | some cls =>
        if cls.inStringTuple then
          { length := some none,
            collation := match collation with
                         | some c => if c ≠ [] then some c else none
                         | none => none }
        else {}
    | none => {}
  match coltype with
  | none =>
      (some { typeRepr := some type_, colName := name },
       { name := name, type := ColType.nulltype, nullable := true,
         default := none, autoincrement := false })
  | some cls =>
      let kwargs :=
        if cls.isNumericSub then
          let kwargs := { kwargs with precision := some numericprec }
          if ¬ cls.isFloatSub then { kwargs with scale := some numericscale } else kwargs
        else kwargs
      (none,
       { name := name, type := ColType.inst cls kwargs, nullable := true,
         default := none, autoincrement := false })

/-- `KQLDialect.get_columns` in base.py (lines 76-141): the warnings emitted
and the column dicts produced for a sequence of fetched rows. -/
def base_get_columns (ischema_names : List Char → Option TypeClass)
    (rows : List IschemaColRow) : List WarnMsg × List ColDescriptor :=
  ((rows.map (base_processRow ischema_names)).filterMap Prod.fst,
   (rows.map (base_processRow ischema_names)).map Prod.snd)

/-- One iteration of the row loop of `KQLDialect.get_columns` in
kql_dialect.py (lines 242-286); the Python body is duplicated verbatim from
base.py. -/
def kqlDialect_processRow (ischema_names : List Char → Option TypeClass)
    (row : IschemaColRow) : Option WarnMsg × ColDescriptor :=
  let name := row.column_name
  let type_ := row.data_type
  let numericprec := row.numeric_precision
  let numericscale := row.numeric_scale
  let collation := if strEqMSNVarcharClass type_ then some sqlLatinCollation else none
  let coltype := ischema_names type_
  let kwargs : TypeKwargs :=
    match coltype with
    | some cls =>
        if cls.inStringTuple then
          { length := some none,
            collation := match collation with
                         | some c => if c ≠ [] then some c else none
                         | none => none }
        else {}
    | none => {}
  match coltype with
  | none =>
      (some { typeRepr := some type_, colName := name },
       { name := name, type := ColType.nulltype, nullable := true,
         default := none, autoincrement := false })
  | some cls =>
      let kwargs :=
        if cls.isNumericSub then
          let kwargs := { kwargs with precision := some numericprec }
          if ¬ cls.isFloatSub then { kwargs with scale := some numericscale } else kwargs
        else kwargs
      (none,
       { name := name, type := ColType.inst cls kwargs, nullable := true,
         default := none, autoincrement := false })

/-- `KQLDialect.get_columns` in kql_dialect.py (lines 222-288). -/
def kqlDialect_get_columns (ischema_names : List Char → Option TypeClass)
    (rows : List IschemaColRow) : List WarnMsg × List ColDescriptor :=
  ((rows.map (kqlDialect_processRow ischema_names)).filterMap Prod.fst,
   (rows.map (kqlDialect_processRow ischema_names)).map Prod.snd)

/-- A row of the primary result of `.show table <tablename>`. -/
structure KustoColRow where
  AttributeName : List Char
  AttributeType : List Char
deriving DecidableEq

/-- The static lookup table `type_map` in `_get_columns` (kql_dialect.py
lines 167-173), accessed with Python `dict.get` (no default). -/
def type_map (s : List Char) : Option (List Char) :=
  if s = "DateTime".toList then some "datetime2".toList
  else if s = "I32".toList then some "int".toList
  else if s = "I64".toList then some "bigint".toList
  else if s = "StringBuffer".toList then some "nvarchar".toList
  else if s = "R64".toList then some "real".toList
  else none

/-- `self.ischema_names.get(type_, None)` where `type_` may be Python `None`,
which is never a key of the string-keyed dict. -/
def ischemaLookup (ischema_names : List Char → Option TypeClass) :
    Option (List Char) → Option TypeClass
  | none => none
  | some s => ischema_names s

/-- One iteration of the row loop of `KQLDialect._get_columns`
(kql_dialect.py lines 176-218). -/
def kusto_processRow (ischema_names : List Char → Option TypeClass)
    (row : KustoColRow) : Option WarnMsg × ColDescriptor :=
  let name := row.AttributeName
  let type_ := type_map row.AttributeType
  let coltype := ischemaLookup ischema_names type_
  let collation := if type_ = some "nvarchar".toList then some sqlLatinCollation else none
  let numericprec : Option Nat := if type_ = some "real".toList then some 53 else none
  let numericscale : Option Nat := none
  let kwargs : TypeKwargs :=
    match coltype with
    | some cls =>
        if cls.inStringTuple then
          { length := some none,
            collation := match collation with
                         | some c => if c ≠ [] then some c else none
                         | none => none }
        else {}
    | none => {}
  match coltype with
  | none =>
      (some { typeRepr := type_, colName := name },
       { name := name, type := ColType.nulltype, nullable := true,
         default := none, autoincrement := false })
  | some cls =>
      let kwargs :=
        if cls.isNumericSub then
          let kwargs := { kwargs with precision := some numericprec }
          if ¬ cls.isFloatSub then { kwargs with scale := some numericscale } else kwargs
        else kwargs
      (none,
       { name := name, type := ColType.inst cls kwargs, nullable := true,
         default := none, autoincrement := false })

/-- `KQLDialect._get_columns` (kql_dialect.py lines 163-220): the warnings
emitted and the column dicts produced for the rows of the primary result of
`.show table <tablename>`. -/
def kusto_get_columns (ischema_names : List Char → Option TypeClass)
    (rows : List KustoColRow) : List WarnMsg × List ColDescriptor :=
  ((rows.map (kusto_processRow ischema_names)).filterMap Prod.fst,
   (rows.map (kusto_processRow ischema_names)).map Prod.snd)

/-! ## `_parse_connection_str` (base.py lines 79-85) and the connection
string assembled by `get_engine` -/

def hexDigitVal (c : Char) : Option Nat :=
  if '0' ≤ c && c ≤ '9' then some (c.toNat - 48)
  else if 'a' ≤ c && c ≤ 'f' then some (c.toNat - 87)
  else if 'A' ≤ c && c ≤ 'F' then some (c.toNat - 55)
  else none

/-- First pass of `urllib.parse.unquote`: each `%XX` escape (two hex digits)
becomes a raw byte (`Sum.inl`); every other character, including a `%` not
followed by two hex digits, stays a literal character (`Sum.inr`). -/
def pctTokens : List Char → List (Sum Nat Char)
  | [] => []
  | c :: rest =>
    if c = '%' then
      match rest with
      | a :: b :: rest' =>
        match hexDigitVal a, hexDigitVal b with
        | some ha, some hb => Sum.inl (16 * ha + hb) :: pctTokens rest'
        | _, _ => Sum.inr c :: pctTokens (a :: b :: rest')
      | [a] => [Sum.inr c, Sum.inr a]
      | [] => [Sum.inr c]
    else Sum.inr c :: pctTokens rest

def replacementChar : Char := '�'

def contByte (b : Nat) : Bool := 0x80 ≤ b && b < 0xC0

/-- The valid range of the second byte of a multi-byte UTF-8 sequence
(it depends on the lead byte, RFC 3629). -/
def validSecondByte (b b2 : Nat) : Bool :=
  if b = 0xE0 then 0xA0 ≤ b2 && b2 < 0xC0
  else if b = 0xED then 0x80 ≤ b2 && b2 < 0xA0
  else if b = 0xF0 then 0x90 ≤ b2 && b2 < 0xC0
  else if b = 0xF4 then 0x80 ≤ b2 && b2 < 0x90
  else contByte b2

/-- UTF-8 decoding with the `errors="replace"` handler. A rejected lead byte
yields one U+FFFD and decoding resumes after it (the claims below only ever
exercise valid sequences). -/
def utf8Decode : List Nat → List Char
  | [] => []
  | b :: rest =>
    if b < 0x80 then Char.ofNat b :: utf8Decode rest
    else if 0xC2 ≤ b && b ≤ 0xDF then
      match rest with
      | b2 :: r2 =>
        if contByte b2 then
          Char.ofNat (0x40 * (b - 0xC0) + (b2 - 0x80)) :: utf8Decode r2
        else replacementChar :: utf8Decode (b2 :: r2)
      | [] => [replacementChar]
    else if 0xE0 ≤ b && b ≤ 0xEF then
      match rest with
      | b2 :: b3 :: r3 =>
        if validSecondByte b b2 && contByte b3 then
          Char.ofNat (0x1000 * (b - 0xE0) + 0x40 * (b2 - 0x80) + (b3 - 0x80)) ::
            utf8Decode r3
        else replacementChar :: utf8Decode (b2 :: b3 :: r3)
      | _ => [replacementChar]
    else if 0xF0 ≤ b && b ≤ 0xF4 then
      match rest with
      | b2 :: b3 :: b4 :: r4 =>
        if validSecondByte b b2 && contByte b3 && contByte b4 then
          Char.ofNat
              (0x40000 * (b - 0xF0) + 0x1000 * (b2 - 0x80) + 0x40 * (b3 - 0x80) +
                (b4 - 0x80)) ::
            utf8Decode r4
        else replacementChar :: utf8Decode (b2 :: b3 :: b4 :: r4)
      | _ => [replacementChar]
    else replacementChar :: utf8Decode rest

/-- Second pass of `unquote`: maximal runs of raw bytes are UTF-8-decoded,
literal characters pass through. `acc` holds the bytes of the current run in
reverse order. -/
def unquoteAux (acc : List Nat) : List (Sum Nat Char) → List Char
  | [] => utf8Decode acc.reverse
  | Sum.inl b :: rest => unquoteAux (b :: acc) rest
  | Sum.inr c :: rest => utf8Decode acc.reverse ++ c :: unquoteAux [] rest

/-- `urllib.parse.unquote`: percent-escapes decoded as UTF-8 byte runs,
other characters unchanged. -/
def unquote (s : List Char) : List Char := unquoteAux [] (pctTokens s)

/-- Python `str.split(sep)` for a non-empty separator: split on each
non-overlapping occurrence, scanning left to right. (Python raises on an
empty separator; here an empty separator splits nothing.) -/
def splitOnSub (sep : List Char) : List Char → List (List Char)
  | [] => [[]]
  | c :: rest =>
    if sep ≠ [] ∧ sep.isPrefixOf (c :: rest) then
      [] :: splitOnSub sep (List.drop (sep.length - 1) rest)
    else
      match splitOnSub sep rest with
      | [] => [[c]]
      | p :: ps => (c :: p) :: ps
termination_by s => s.length
decreasing_by
  · simp only [List.length_cons, List.length_drop]
    omega
  · simp only [List.length_cons]
    omega

def dbSep : List Char := ";Database=".toList

def srvSep : List Char := ";Server=".toList

def driverSeg : List Char := "Driver=\x7bODBC Driver 17 for SQL Server\x7d".toList

def kustoSuffix : List Char := ".kusto.windows.net".toList

def httpsSeg : List Char := "https://".toList

/-- The ODBC connection string assembled by `get_engine` (base.py line 45,
identically `__init__.py` line 25):
`f"Driver={{ODBC Driver 17 for SQL Server}};Server={server}.kusto.windows.net;Database={database}"`. -/
def assembleConnStr (server database : List Char) : List Char :=
  driverSeg ++ srvSep ++ server ++ kustoSuffix ++ dbSep ++ database

/-- `_parse_connection_str` (base.py lines 79-85):

    url = unquote(str(conn_str))
    url_split_db = url.split(";Database=")
    database = url_split_db[1]
    server = url_split_db[0].split(";Server=")[1]
    server = f"https://{server}"
    return server, database

`none` models the Python IndexError when an expected separator is absent. -/
def parse_connection_str (conn_str : List Char) : Option (List Char × List Char) :=
  let url := unquote conn_str
  let url_split_db := splitOnSub dbSep url
  match url_split_db.get? 1 with
  | none => none
  | some database =>
    match url_split_db.get? 0 with
    | none => none
    | some first =>
      match (splitOnSub srvSep first).get? 1 with
      | none => none
      | some server => some (httpsSeg ++ server, database)

/-! ## The dialect object's state and the `do_connect` listener registered by
`KQLDialect.__init__` (kql_dialect.py lines 127-143) -/

/-- The Kusto client built from
`KustoConnectionStringBuilder.with_token_provider(url, lambda: token)`. -/
structure KustoClientState where
  url : List Char
  tokenValue : List Char
deriving DecidableEq

/-- The attributes `KQLDialect.__init__` creates on the dialect object
(kql_dialect.py lines 128-130), all initialised to `None`. -/
structure DialectState where
  _kusto_client : Option KustoClientState
  _server : Option (List Char)
  _database : Option (List Char)
deriving DecidableEq

/-- The `do_connect` listener registered by `KQLDialect.__init__`
(kql_dialect.py lines 132-141):

    cargs[0] = cargs[0].replace(";Trusted_Connection=Yes", "")
    token = _get_token(azure_credential)
    self._server, self._database = _parse_connection_str(cargs[0])
    url = self._server
    kcsb = KustoConnectionStringBuilder.with_token_provider(url, lambda: token)
    self._kusto_client = KustoClient(kcsb)
    cparams["attrs_before"] = _encode_token(token)

The token fetched from the external credential is an input; `none` models a
Python exception (empty `cargs`, connection-string parse failure, or token
overflow). -/
def dialect_provide_token (token : List Char) (self : DialectState)
    (cargs : List (List Char)) (cparams : Params) :
    Option (DialectState × List (List Char) × Params) :=
  match cargs with
  | [] => none
  | a :: rest =>
    let a' := replaceAll trustedConnectionPat [] a
    match parse_connection_str a' with
    | none => none
    | some sd =>
      match encode_token token with
      | none => none
      | some d =>
        some ({ self with
                  _server := some sd.1
                  _database := some sd.2
                  _kusto_client := some { url := sd.1, tokenValue := token } },
              a' :: rest,
              setParam cparams "attrs_before" (ParamValue.tokenDict d.1 d.2))

/-! ## Shared helper lemmas -/

theorem lookupParam_setParam (ps : Params) (k k2 : String) (v : ParamValue) :
    lookupParam (setParam ps k v) k2 = if k = k2 then some v else lookupParam ps k2 := by
  induction ps with
  | nil => simp [setParam, lookupParam]
  | cons kv rest ih =>
    obtain ⟨k', v'⟩ := kv
    by_cases hk : k' = k
    · subst hk
      simp only [setParam, if_pos rfl, lookupParam]
      split_ifs <;> simp_all [lookupParam]
    · simp only [setParam, if_neg hk, lookupParam]
      split_ifs with h1 <;> simp_all [lookupParam]

theorem head?_isSome_iff {α : Type} (l : List α) : l.head?.isSome = true ↔ l ≠ [] := by
  cases l <;> simp

theorem ne_nil_iff_exists_mem {α : Type} (l : List α) : l ≠ [] ↔ ∃ a, a ∈ l := by
  cases l <;> simp

theorem base_processRow_fixed_fields (m : List Char → Option TypeClass)
    (r : IschemaColRow) :
    (base_processRow m r).2.nullable = true ∧ (base_processRow m r).2.default = none ∧
      (base_processRow m r).2.autoincrement = false := by
  cases h : m r.data_type <;> simp [base_processRow, h]

theorem kqlDialect_processRow_fixed_fields (m : List Char → Option TypeClass)
    (r : IschemaColRow) :
    (kqlDialect_processRow m r).2.nullable = true ∧
      (kqlDialect_processRow m r).2.default = none ∧
      (kqlDialect_processRow m r).2.autoincrement = false := by
  cases h : m r.data_type <;> simp [kqlDialect_processRow, h]

theorem kusto_processRow_fixed_fields (m : List Char → Option TypeClass)
    (r : KustoColRow) :
    (kusto_processRow m r).2.nullable = true ∧ (kusto_processRow m r).2.default = none ∧
      (kusto_processRow m r).2.autoincrement = false := by
  cases h : ischemaLookup m (type_map r.AttributeType) <;> simp [kusto_processRow, h]

/-! ## Lemmas about `unquote`, `splitOnSub` and `replaceAll` -/

theorem pctTokens_cons_of_ne (c : Char) (rest : List Char) (hc : c ≠ '%') :
    pctTokens (c :: rest) = Sum.inr c :: pctTokens rest := by
  cases rest with
  | nil => simp [pctTokens, hc]
  | cons a rest' => cases rest' <;> simp [pctTokens, hc]

theorem pctTokens_append_of_no_pct (X Y : List Char) (h : '%' ∉ X) :
    pctTokens (X ++ Y) = X.map Sum.inr ++ pctTokens Y := by
  induction X with
  | nil => simp
  | cons c rest ih =>
    have hc : c ≠ '%' := fun e => h (by simp [e])
    have hr : '%' ∉ rest := fun hm => h (List.mem_cons_of_mem c hm)
    rw [List.cons_append, pctTokens_cons_of_ne c _ hc, ih hr, List.map_cons,
      List.cons_append]

theorem unquoteAux_inr_append (X : List Char) (T : List (Sum Nat Char)) :
    unquoteAux [] (X.map Sum.inr ++ T) = X ++ unquoteAux [] T := by
  induction X with
  | nil => simp
  | cons c rest ih =>
    simp only [List.map_cons, List.cons_append, unquoteAux, List.append_eq]
    rw [ih]
    have h0 : utf8Decode ([] : List Nat) = [] := rfl
    simp [h0]

theorem unquote_append_of_no_pct (X Y : List Char) (h : '%' ∉ X) :
    unquote (X ++ Y) = X ++ unquote Y := by
  rw [unquote, pctTokens_append_of_no_pct X Y h, unquoteAux_inr_append, unquote]

theorem unquote_of_no_pct (s : List Char) (h : '%' ∉ s) : unquote s = s := by
  have h0 := unquote_append_of_no_pct s [] h
  have he : unquote ([] : List Char) = [] := rfl
  simp only [he, List.append_nil] at h0
  exact h0

theorem splitOnSub_of_not_infix (sep : List Char) (_hne : sep ≠ []) :
    ∀ D, ¬ sep <:+: D → splitOnSub sep D = [D] := by
  intro D
  induction D with
  | nil =>
    intro _
    simp [splitOnSub]
  | cons c rest ih =>
    intro h
    have hnp : ¬ sep.isPrefixOf (c :: rest) := fun hp =>
      h (List.isPrefixOf_iff_prefix.mp hp).isInfix
    have hcond : ¬ (sep ≠ [] ∧ sep.isPrefixOf (c :: rest)) := fun hh => hnp hh.2
    simp only [splitOnSub]
    rw [if_neg hcond, ih (fun hi => h (List.infix_cons hi))]

theorem splitOnSub_append_sep (sep : List Char) (hne : sep ≠ [])
    (hbf : ∀ k, k < sep.length → 0 < k → ¬ (sep.take k <:+ sep)) :
    ∀ A rest, ¬ sep <:+: A →
      splitOnSub sep (A ++ (sep ++ rest)) = A :: splitOnSub sep rest := by
  intro A
  induction A with
  | nil =>
    intro rest _
    obtain ⟨s0, sep', rfl⟩ : ∃ s0 sep', sep = s0 :: sep' := by
      cases sep with
      | nil => exact absurd rfl hne
      | cons s0 sep' => exact ⟨s0, sep', rfl⟩
    have hpre : (s0 :: sep').isPrefixOf (s0 :: (sep' ++ rest)) := by
      apply List.isPrefixOf_iff_prefix.mpr
      exact ⟨rest, by simp⟩
    simp only [List.nil_append, List.cons_append, splitOnSub]
    rw [if_pos ⟨hne, hpre⟩]
    simp [List.drop_left]
  | cons c A' ih =>
    intro rest hA
    have hA' : ¬ sep <:+: A' := fun hi => hA (List.infix_cons hi)
    have hnp : ¬ sep.isPrefixOf (c :: (A' ++ (sep ++ rest))) := by
      intro hp
      have hp' : sep <+: (c :: A') ++ (sep ++ rest) := by
        simpa using List.isPrefixOf_iff_prefix.mp hp
      by_cases hl : sep.length ≤ (c :: A').length
      · have hps : sep <+: c :: A' :=
          List.prefix_of_prefix_length_le hp' (List.prefix_append _ _) hl
        exact hA hps.isInfix
      · push_neg at hl
        have hxp : (c :: A') <+: sep :=
          List.prefix_of_prefix_length_le (List.prefix_append _ _) hp' (le_of_lt hl)
        obtain ⟨r, hr⟩ := hxp
        have hrlen : (c :: A').length + r.length = sep.length := by
          rw [← hr]
          simp only [List.cons_append, List.length_cons, List.length_append]
          omega
        have hrne : 0 < r.length := by
          simp only [List.length_cons] at hrlen hl
          omega
        have h1 : (c :: A') ++ r <+: (c :: A') ++ (sep ++ rest) := by
          rw [hr]; exact hp'
        have h2 : r <+: sep ++ rest := (List.prefix_append_right_inj _).mp h1
        have h3 : r <+: sep :=
          List.prefix_of_prefix_length_le h2 (List.prefix_append _ _) (by omega)
        have h4 : r <:+ sep := ⟨c :: A', hr⟩
        have h5 : r = sep.take r.length := List.prefix_iff_eq_take.mp h3
        exact hbf r.length (by simp only [List.length_cons] at hrlen ⊢; omega) hrne
          (h5 ▸ h4)
    have hcond : ¬ (sep ≠ [] ∧ sep.isPrefixOf (c :: (A' ++ (sep ++ rest)))) :=
      fun hh => hnp hh.2
    simp only [List.cons_append, splitOnSub]
    rw [if_neg hcond, ih rest hA']

theorem infix_append_cases {sep : List Char} :
    ∀ {X Y : List Char}, sep <:+: X ++ Y →
      sep <:+: X ∨ sep <:+: Y ∨
        ∃ k, 0 < k ∧ k < sep.length ∧ sep.take k <:+ X ∧ sep.drop k <+: Y := by
  intro X
  induction X with
  | nil =>
    intro Y h
    exact Or.inr (Or.inl (by simpa using h))
  | cons c X' ih =>
    intro Y h
    obtain ⟨s, t, hst⟩ := h
    rcases s with _ | ⟨c', s'⟩
    · have hp : sep <+: (c :: X') ++ Y := ⟨t, by simpa using hst⟩
      by_cases hl : sep.length ≤ (c :: X').length
      · exact Or.inl
          ((List.prefix_of_prefix_length_le hp (List.prefix_append _ _) hl).isInfix)
      · push_neg at hl
        have hxp : (c :: X') <+: sep :=
          List.prefix_of_prefix_length_le (List.prefix_append _ _) hp (le_of_lt hl)
        obtain ⟨r, hr⟩ := hxp
        refine Or.inr (Or.inr ⟨(c :: X').length, by simp, hl, ?_, ?_⟩)
        · rw [← hr, List.take_left]
        · rw [← hr, List.drop_left]
          obtain ⟨t', ht'⟩ := hp
          rw [← hr, List.append_assoc] at ht'
          exact ⟨t', List.append_cancel_left ht'⟩
    · have h2 : sep <:+: X' ++ Y := by
        refine ⟨s', t, ?_⟩
        have := hst
        simp only [List.cons_append] at this
        exact (List.cons_eq_cons.mp this).2
      rcases ih h2 with h3 | h3 | ⟨k, hk1, hk2, hk3, hk4⟩
      · exact Or.inl (List.infix_cons h3)
      · exact Or.inr (Or.inl h3)
      · exact Or.inr (Or.inr ⟨k, hk1, hk2, hk3.trans (List.suffix_cons c X'), hk4⟩)

theorem not_infix_append {sep X Y : List Char} (hX : ¬ sep <:+: X) (hY : ¬ sep <:+: Y)
    (hcross : ∀ k, k < sep.length → 0 < k →
      ¬ (sep.take k <:+ X) ∨ ¬ (sep.drop k <+: Y)) :
    ¬ sep <:+: X ++ Y := by
  intro h
  rcases infix_append_cases h with h | h | ⟨k, h1, h2, h3, h4⟩
  · exact hX h
  · exact hY h
  · rcases hcross k h2 h1 with hc | hc
    · exact hc h3
    · exact hc h4

theorem replaceAll_of_not_infix (pat repl : List Char) :
    ∀ s, ¬ pat <:+: s → replaceAll pat repl s = s := by
  intro s
  induction s with
  | nil =>
    intro _
    simp [replaceAll]
  | cons c rest ih =>
    intro h
    have hnp : ¬ pat.isPrefixOf (c :: rest) := fun hp =>
      h (List.isPrefixOf_iff_prefix.mp hp).isInfix
    have hcond : ¬ (pat ≠ [] ∧ pat.isPrefixOf (c :: rest)) := fun hh => hnp hh.2
    simp only [replaceAll]
    rw [if_neg hcond, ih (fun hi => h (List.infix_cons hi))]

/-! ## Claim C1 -/

/-- C1: for every token string `t` (whose UTF-16-LE encoding fits the
4-byte length field of `struct.pack "<I"`), the token-encoding function
returns a dictionary whose only key is 1256 (`SQL_COPT_SS_ACCESS_TOKEN`) and
whose value is the UTF-16-LE length of `t` packed as a 4-byte little-endian
unsigned integer followed by the UTF-16-LE encoding itself. -/
theorem C1_encode_token_spec (t : List Char) (h : (utf16le t).length < 2 ^ 32) :
    encode_token t =
      some (1256,
        [(utf16le t).length % 256, (utf16le t).length / 2 ^ 8 % 256,
            (utf16le t).length / 2 ^ 16 % 256, (utf16le t).length / 2 ^ 24 % 256] ++
          utf16le t) := by
  have h' : (utf16le t).length < 4294967296 := by
    calc (utf16le t).length < 2 ^ 32 := h
    _ = 4294967296 := by norm_num
  unfold encode_token structPackIs packU32LE packBytesFixed SQL_COPT_SS_ACCESS_TOKEN
  simp [h']

theorem C1_witness :
    (utf16le "ab".toList).length < 2 ^ 32 ∧
      encode_token "ab".toList = some (1256, [4, 0, 0, 0, 97, 0, 98, 0]) := by
  refine ⟨by decide, ?_⟩
  rw [C1_encode_token_spec "ab".toList (by decide)]
  decide

/-! ## Claim C2 -/

/-- C2: the `do_connect` listener installed by `get_engine` replaces every
occurrence of `";Trusted_Connection=Yes"` in the first connection argument
(modelled by `replaceAll`, the embedding of Python `str.replace`), sets the
`"attrs_before"` entry of the parameter map to the encoded token dictionary,
and changes nothing else: the remaining connection arguments (`rest`) are
returned unchanged and every other parameter entry looks up unchanged. -/
theorem C2_provide_token_spec (token : List Char) (d : Nat × List Nat)
    (a : List Char) (rest : List (List Char)) (cparams : Params)
    (h : encode_token token = some d) :
    provide_token token (a :: rest) cparams =
      some (replaceAll trustedConnectionPat [] a :: rest,
        setParam cparams "attrs_before" (ParamValue.tokenDict d.1 d.2)) ∧
    lookupParam (setParam cparams "attrs_before" (ParamValue.tokenDict d.1 d.2))
        "attrs_before" = some (ParamValue.tokenDict d.1 d.2) ∧
    ∀ k, k ≠ "attrs_before" →
      lookupParam (setParam cparams "attrs_before" (ParamValue.tokenDict d.1 d.2)) k =
        lookupParam cparams k := by
  refine ⟨by simp [provide_token, h], ?_, ?_⟩
  · rw [lookupParam_setParam]
    simp
  · intro k hk
    rw [lookupParam_setParam, if_neg (fun e => hk e.symm)]

theorem C2_witness :
    encode_token "t".toList = some (1256, [2, 0, 0, 0, 116, 0]) ∧
      provide_token "t".toList
          ["x;Trusted_Connection=Yesz".toList, "r".toList]
          [("autocommit", ParamValue.opaqueVal 0)] =
        some (["xz".toList, "r".toList],
          [("autocommit", ParamValue.opaqueVal 0),
            ("attrs_before", ParamValue.tokenDict 1256 [2, 0, 0, 0, 116, 0])]) := by
  have h := C2_provide_token_spec "t".toList (1256, [2, 0, 0, 0, 116, 0])
    "x;Trusted_Connection=Yesz".toList ["r".toList]
    [("autocommit", ParamValue.opaqueVal 0)] (by decide)
  refine ⟨by decide, ?_⟩
  rw [h.1]
  simp [replaceAll, trustedConnectionPat, setParam]

/-! ## Claim C3 -/

/-- C3 counterexample: the claim asserts that each of `get_pk_constraint`,
`get_foreign_keys` and `get_indexes` reshapes rows returned by the backing
system, in particular returning different results for some two backing
states. In fact all three are constant functions of the backing state, so no
such pair of states exists for any of them. -/
theorem C3_counterexample :
    ¬ ∃ (s₁ s₂ : BackingState) (t : List Char),
        get_pk_constraint s₁ t ≠ get_pk_constraint s₂ t ∨
        get_foreign_keys s₁ t ≠ get_foreign_keys s₂ t ∨
        get_indexes s₁ t ≠ get_indexes s₂ t := by
  rintro ⟨s₁, s₂, t, h | h | h⟩ <;> exact h rfl

/-- C3 (amended): the metadata-reflection hooks `get_pk_constraint`,
`get_foreign_keys` and `get_indexes` never consult the backing system: for
every backing state and table name, `get_pk_constraint` returns the constant
`{"constrained_columns": [], "name": None}` and the other two return the
empty set. -/
theorem C3_constant_hooks (s : BackingState) (t : List Char) :
    get_pk_constraint s t = { constrained_columns := [], name := none } ∧
      get_foreign_keys s t = [] ∧ get_indexes s t = [] :=
  ⟨rfl, rfl, rfl⟩

/-! ## Claim C4 -/

/-- C4: in every column-reflection call (`get_columns` in base.py and
kql_dialect.py, and `_get_columns`), a fetched row whose data-type name is
not a key of `ischema_names` yields a warning and a column descriptor whose
type is the null type (and that descriptor and warning occur in the
function's output), while a row whose data-type name is a key never takes
this path: no warning, and its type is not the null type. For `_get_columns`
the looked-up name is the `type_map` image of the row's attribute type. -/
theorem C4_unrecognized_type (m : List Char → Option TypeClass)
    (rows : List IschemaColRow) (row : IschemaColRow) (hrow : row ∈ rows)
    (krows : List KustoColRow) (krow : KustoColRow) (hkrow : krow ∈ krows) :
    (m row.data_type = none →
      (base_processRow m row).1 = some ⟨some row.data_type, row.column_name⟩ ∧
      (base_processRow m row).2.type = ColType.nulltype ∧
      (⟨some row.data_type, row.column_name⟩ : WarnMsg) ∈ (base_get_columns m rows).1 ∧
      (base_processRow m row).2 ∈ (base_get_columns m rows).2 ∧
      (kqlDialect_processRow m row).1 = some ⟨some row.data_type, row.column_name⟩ ∧
      (kqlDialect_processRow m row).2.type = ColType.nulltype) ∧
    (m row.data_type ≠ none →
      (base_processRow m row).1 = none ∧
      (base_processRow m row).2.type ≠ ColType.nulltype ∧
      (kqlDialect_processRow m row).1 = none ∧
      (kqlDialect_processRow m row).2.type ≠ ColType.nulltype) ∧
    (ischemaLookup m (type_map krow.AttributeType) = none →
      (kusto_processRow m krow).1 =
        some ⟨type_map krow.AttributeType, krow.AttributeName⟩ ∧
      (kusto_processRow m krow).2.type = ColType.nulltype ∧
      (⟨type_map krow.AttributeType, krow.AttributeName⟩ : WarnMsg) ∈
        (kusto_get_columns m krows).1 ∧
      (kusto_processRow m krow).2 ∈ (kusto_get_columns m krows).2) ∧
    (ischemaLookup m (type_map krow.AttributeType) ≠ none →
      (kusto_processRow m krow).1 = none ∧
      (kusto_processRow m krow).2.type ≠ ColType.nulltype) := by
  refine ⟨fun h => ?_, fun h => ?_, fun h => ?_, fun h => ?_⟩
  · refine ⟨by simp [base_processRow, h], by simp [base_processRow, h], ?_, ?_,
      by simp [kqlDialect_processRow, h], by simp [kqlDialect_processRow, h]⟩
    · refine List.mem_filterMap.mpr ⟨base_processRow m row, ?_, by simp [base_processRow, h]⟩
      exact List.mem_map.mpr ⟨row, hrow, rfl⟩
    · exact List.mem_map.mpr ⟨base_processRow m row, List.mem_map.mpr ⟨row, hrow, rfl⟩, rfl⟩
  · obtain ⟨cls, hc⟩ := Option.ne_none_iff_exists'.mp h
    exact ⟨by simp [base_processRow, hc], by simp [base_processRow, hc],
      by simp [kqlDialect_processRow, hc], by simp [kqlDialect_processRow, hc]⟩
  · refine ⟨by simp [kusto_processRow, h], by simp [kusto_processRow, h], ?_, ?_⟩
    · refine List.mem_filterMap.mpr ⟨kusto_processRow m krow, ?_, by simp [kusto_processRow, h]⟩
      exact List.mem_map.mpr ⟨krow, hkrow, rfl⟩
    · exact List.mem_map.mpr ⟨kusto_processRow m krow, List.mem_map.mpr ⟨krow, hkrow, rfl⟩, rfl⟩
  · obtain ⟨cls, hc⟩ := Option.ne_none_iff_exists'.mp h
    exact ⟨by simp [kusto_processRow, hc], by simp [kusto_processRow, hc]⟩

theorem C4_witness :
    ((fun (_ : List Char) => (none : Option TypeClass)) "unknowntype".toList = none) ∧
      (base_processRow (fun _ => none)
          ⟨"c1".toList, "unknowntype".toList, 1, none, none⟩).2.type = ColType.nulltype ∧
      (⟨some "unknowntype".toList, "c1".toList⟩ : WarnMsg) ∈
        (base_get_columns (fun _ => none)
          [⟨"c1".toList, "unknowntype".toList, 1, none, none⟩]).1 := by
  have h := (C4_unrecognized_type (fun _ => none)
    [⟨"c1".toList, "unknowntype".toList, 1, none, none⟩]
    ⟨"c1".toList, "unknowntype".toList, 1, none, none⟩ (by simp)
    [⟨"k".toList, "I32".toList⟩] ⟨"k".toList, "I32".toList⟩ (by simp)).1 rfl
  exact ⟨rfl, h.2.1, h.2.2.1⟩

/-! ## Claim C5 -/

/-- C5: `_get_columns` translates attribute-type names through the fixed
table {DateTime ↦ datetime2, I32 ↦ int, I64 ↦ bigint,
StringBuffer ↦ nvarchar, R64 ↦ real}; every attribute type outside these
five maps to nothing, so the corresponding column falls into the
unrecognized-type path (warning and null type) for every `ischema_names`. -/
theorem C5_type_map_table :
    type_map "DateTime".toList = some "datetime2".toList ∧
    type_map "I32".toList = some "int".toList ∧
    type_map "I64".toList = some "bigint".toList ∧
    type_map "StringBuffer".toList = some "nvarchar".toList ∧
    type_map "R64".toList = some "real".toList ∧
    ∀ s, s ∉ ["DateTime".toList, "I32".toList, "I64".toList,
        "StringBuffer".toList, "R64".toList] →
      type_map s = none ∧
        ∀ (m : List Char → Option TypeClass) (nm : List Char),
          (kusto_processRow m ⟨nm, s⟩).1.isSome = true ∧
          (kusto_processRow m ⟨nm, s⟩).2.type = ColType.nulltype := by
  refine ⟨by decide, by decide, by decide, by decide, by decide, ?_⟩
  intro s hs
  simp only [List.mem_cons, List.not_mem_nil, or_false, not_or] at hs
  obtain ⟨h1, h2, h3, h4, h5⟩ := hs
  have htm : type_map s = none := by
    rw [type_map, if_neg h1, if_neg h2, if_neg h3, if_neg h4, if_neg h5]
  exact ⟨htm, fun m nm => ⟨by simp [kusto_processRow, htm, ischemaLookup],
    by simp [kusto_processRow, htm, ischemaLookup]⟩⟩

theorem C5_witness :
    ("TimeSpan".toList ∉ ["DateTime".toList, "I32".toList, "I64".toList,
        "StringBuffer".toList, "R64".toList]) ∧
      type_map "TimeSpan".toList = none ∧
      (kusto_processRow (fun _ => none)
          ⟨"c".toList, "TimeSpan".toList⟩).2.type = ColType.nulltype := by
  have h := C5_type_map_table.2.2.2.2.2 "TimeSpan".toList (by decide)
  exact ⟨by decide, h.1, (h.2 (fun _ => none) "c".toList).2⟩

/-! ## Claim C7 -/

/-- C7: `has_table` returns `True` iff the backing catalog reports at least
one table with that name. Management-command variant (kql_dialect.py): iff
the filtered `.show tables` result is non-empty, i.e. iff the name is in the
database's table list. Information-schema variant (base.py): iff some row
has that `table_name` with `table_type` 'BASE TABLE' or 'VIEW', and matching
`table_schema` whenever a (truthy, i.e. non-empty) owner is given. -/
theorem C7_has_table (tables : List (List Char)) (rows : List TableRow)
    (tablename : List Char) (owner : Option (List Char)) :
    (has_table_kql tables tablename = true ↔ tablename ∈ tables) ∧
    (has_table_ischema rows tablename owner = true ↔
      ∃ r ∈ rows,
        (r.table_type = "BASE TABLE".toList ∨ r.table_type = "VIEW".toList) ∧
        r.table_name = tablename ∧
        ∀ o, owner = some o → o ≠ [] → r.table_schema = o) := by
  constructor
  · simp only [has_table_kql, decide_eq_true_eq, List.length_pos_iff_exists_mem,
      List.mem_filter, beq_iff_eq]
    constructor
    · rintro ⟨a, ha, rfl⟩
      exact ha
    · intro h
      exact ⟨tablename, h, rfl⟩
  · rcases owner with _ | o
    · simp only [has_table_ischema]
      rw [head?_isSome_iff, ne_nil_iff_exists_mem]
      simp only [List.mem_filter, Bool.and_eq_true, Bool.or_eq_true, beq_iff_eq]
      constructor
      · rintro ⟨r, hr, hp, hn⟩
        exact ⟨r, hr, hp, hn, by simp⟩
      · rintro ⟨r, hr, h1, h2, _⟩
        exact ⟨r, hr, h1, h2⟩
    · by_cases ho : o = []
      · subst ho
        simp only [has_table_ischema, ne_eq, not_true_eq_false, if_false]
        rw [head?_isSome_iff, ne_nil_iff_exists_mem]
        simp only [List.mem_filter, Bool.and_eq_true, Bool.or_eq_true, beq_iff_eq]
        constructor
        · rintro ⟨r, hr, hp, hn⟩
          exact ⟨r, hr, hp, hn, by rintro o' ⟨rfl⟩ hne; exact absurd rfl hne⟩
        · rintro ⟨r, hr, h1, h2, _⟩
          exact ⟨r, hr, h1, h2⟩
      · simp only [has_table_ischema, ne_eq, ho, not_false_eq_true, if_true]
        rw [head?_isSome_iff, ne_nil_iff_exists_mem]
        simp only [List.mem_filter, Bool.and_eq_true, Bool.or_eq_true, beq_iff_eq]
        constructor
        · rintro ⟨r, ⟨hr, hp, hn⟩, hq⟩
          exact ⟨r, hr, hp, hn, by rintro o' ⟨rfl⟩ _; exact hq⟩
        · rintro ⟨r, hr, h1, h2, h3⟩
          exact ⟨r, ⟨hr, h1, h2⟩, h3 o rfl ho⟩

/-! ## Claim C9 -/

/-- C9: every column descriptor returned by the three column-reflection
functions, for every fetched row and regardless of its contents, has
`nullable = True`, `default = None` and `autoincrement = False`. -/
theorem C9_fixed_descriptor_fields (m : List Char → Option TypeClass)
    (rows : List IschemaColRow) (krows : List KustoColRow) (c : ColDescriptor)
    (hc : c ∈ (base_get_columns m rows).2 ∨ c ∈ (kqlDialect_get_columns m rows).2 ∨
      c ∈ (kusto_get_columns m krows).2) :
    c.nullable = true ∧ c.default = none ∧ c.autoincrement = false := by
  rcases hc with hc | hc | hc
  · simp only [base_get_columns, List.mem_map] at hc
    obtain ⟨p, ⟨r, _, rfl⟩, rfl⟩ := hc
    exact base_processRow_fixed_fields m r
  · simp only [kqlDialect_get_columns, List.mem_map] at hc
    obtain ⟨p, ⟨r, _, rfl⟩, rfl⟩ := hc
    exact kqlDialect_processRow_fixed_fields m r
  · simp only [kusto_get_columns, List.mem_map] at hc
    obtain ⟨p, ⟨r, _, rfl⟩, rfl⟩ := hc
    exact kusto_processRow_fixed_fields m r

theorem C9_witness :
    ((base_processRow (fun _ => none)
        ⟨"c1".toList, "unknown".toList, 1, none, none⟩).2 ∈
      (base_get_columns (fun _ => none)
        [⟨"c1".toList, "unknown".toList, 1, none, none⟩]).2 ∨
      (base_processRow (fun _ => none)
          ⟨"c1".toList, "unknown".toList, 1, none, none⟩).2 ∈
        ([] : List ColDescriptor) ∨
      (base_processRow (fun _ => none)
          ⟨"c1".toList, "unknown".toList, 1, none, none⟩).2 ∈
        ([] : List ColDescriptor)) ∧
      (base_processRow (fun _ => none)
          ⟨"c1".toList, "unknown".toList, 1, none, none⟩).2.nullable = true := by
  refine ⟨Or.inl (by simp [base_get_columns]), ?_⟩
  have h := C9_fixed_descriptor_fields (fun _ => none)
    [⟨"c1".toList, "unknown".toList, 1, none, none⟩] []
    (base_processRow (fun _ => none) ⟨"c1".toList, "unknown".toList, 1, none, none⟩).2
    (Or.inl (by simp [base_get_columns]))
  exact h.1

/-! ## Claim C10 -/

/-- C10: the duplicated implementations of `get_columns` in base.py and
kql_dialect.py compute the same function: for every `ischema_names` lookup
and every sequence of fetched rows, they produce identical warnings and
identical column-descriptor lists. -/
theorem C10_duplicates_agree (m : List Char → Option TypeClass)
    (rows : List IschemaColRow) :
    base_get_columns m rows = kqlDialect_get_columns m rows := rfl

/-! ## Claim C6 -/

theorem dbSep_not_infix_head (server : List Char) (h : ¬ dbSep <:+: server) :
    ¬ dbSep <:+: (driverSeg ++ (srvSep ++ (server ++ kustoSuffix))) := by
  have hd1 : ∀ k, k < dbSep.length → 0 < k → ¬ (dbSep.drop k <+: kustoSuffix) := by decide
  have hd2 : ∀ k, k < dbSep.length → 0 < k → ¬ (dbSep.take k <:+ srvSep) := by decide
  have hd3 : ∀ k, k < dbSep.length → 0 < k → ¬ (dbSep.take k <:+ driverSeg) := by decide
  have hsk : ¬ dbSep <:+: (server ++ kustoSuffix) :=
    not_infix_append h (by decide) (fun k h1 h2 => Or.inr (hd1 k h1 h2))
  have hssk : ¬ dbSep <:+: (srvSep ++ (server ++ kustoSuffix)) :=
    not_infix_append (by decide) hsk (fun k h1 h2 => Or.inl (hd2 k h1 h2))
  exact not_infix_append (by decide) hssk (fun k h1 h2 => Or.inl (hd3 k h1 h2))

theorem srvSep_not_infix_serverK (server : List Char) (h : ¬ srvSep <:+: server) :
    ¬ srvSep <:+: (server ++ kustoSuffix) := by
  have hd1 : ∀ k, k < srvSep.length → 0 < k → ¬ (srvSep.drop k <+: kustoSuffix) := by
    decide
  exact not_infix_append h (by decide) (fun k h1 h2 => Or.inr (hd1 k h1 h2))

/-- Evaluation of `_parse_connection_str` on a connection string whose
`unquote` image is an assembled connection string with separator-free server
and database parts. -/
theorem parse_connection_str_eval (conn server database : List Char)
    (hu : unquote conn = assembleConnStr server database)
    (h1 : ¬ srvSep <:+: server) (h2 : ¬ dbSep <:+: server)
    (h4 : ¬ dbSep <:+: database) :
    parse_connection_str conn = some (httpsSeg ++ (server ++ kustoSuffix), database) := by
  have hbfD : ∀ k, k < dbSep.length → 0 < k → ¬ (dbSep.take k <:+ dbSep) := by decide
  have hbfS : ∀ k, k < srvSep.length → 0 < k → ¬ (srvSep.take k <:+ srvSep) := by decide
  have hsplit1 : splitOnSub dbSep (assembleConnStr server database) =
      (driverSeg ++ (srvSep ++ (server ++ kustoSuffix))) :: splitOnSub dbSep database := by
    have hstep := splitOnSub_append_sep dbSep (by decide) hbfD
      (driverSeg ++ (srvSep ++ (server ++ kustoSuffix))) database
      (dbSep_not_infix_head server h2)
    rw [assembleConnStr]
    simpa [List.append_assoc] using hstep
  have hsplitD : splitOnSub dbSep database = [database] :=
    splitOnSub_of_not_infix dbSep (by decide) database h4
  have hsplit2 : splitOnSub srvSep (driverSeg ++ (srvSep ++ (server ++ kustoSuffix))) =
      driverSeg :: splitOnSub srvSep (server ++ kustoSuffix) :=
    splitOnSub_append_sep srvSep (by decide) hbfS driverSeg (server ++ kustoSuffix)
      (by decide)
  have hsplitS : splitOnSub srvSep (server ++ kustoSuffix) = [server ++ kustoSuffix] :=
    splitOnSub_of_not_infix srvSep (by decide) _ (srvSep_not_infix_serverK server h1)
  simp only [parse_connection_str, hu, hsplit1, hsplitD]
  simp
  rw [hsplit2, hsplitS]
  simp

theorem no_pct_assembleConnStr (server database : List Char)
    (h5 : '%' ∉ server) (h6 : '%' ∉ database) :
    '%' ∉ assembleConnStr server database := by
  intro hm
  have hfixed : ('%' ∉ driverSeg) ∧ ('%' ∉ srvSep) ∧ ('%' ∉ kustoSuffix) ∧
      ('%' ∉ dbSep) := by decide
  simp only [assembleConnStr, List.append_assoc, List.mem_append] at hm
  rcases hm with hm | hm | hm | hm | hm | hm
  · exact hfixed.1 hm
  · exact hfixed.2.1 hm
  · exact h5 hm
  · exact hfixed.2.2.1 hm
  · exact hfixed.2.2.2 hm
  · exact h6 hm

/-- C6 (amended): for all server and database strings that contain neither
`";Server="` nor `";Database="` as substrings and contain no percent
character (`unquote` first percent-decodes the string, so a `%XX` escape in
the parts would be rewritten), `_parse_connection_str` applied to the ODBC
connection string that `get_engine` assembles yields exactly
`("https://<server>.kusto.windows.net", database)`. -/
theorem C6_roundtrip (server database : List Char)
    (h1 : ¬ srvSep <:+: server) (h2 : ¬ dbSep <:+: server)
    (_h3 : ¬ srvSep <:+: database) (h4 : ¬ dbSep <:+: database)
    (h5 : '%' ∉ server) (h6 : '%' ∉ database) :
    parse_connection_str (assembleConnStr server database) =
      some (httpsSeg ++ (server ++ kustoSuffix), database) :=
  parse_connection_str_eval _ server database
    (unquote_of_no_pct _ (no_pct_assembleConnStr server database h5 h6)) h1 h2 h4

theorem C6_witness :
    (¬ srvSep <:+: "abc".toList) ∧ (¬ dbSep <:+: "abc".toList) ∧
    (¬ srvSep <:+: "mydb".toList) ∧ (¬ dbSep <:+: "mydb".toList) ∧
    ('%' ∉ "abc".toList) ∧ ('%' ∉ "mydb".toList) ∧
    parse_connection_str (assembleConnStr "abc".toList "mydb".toList) =
      some (httpsSeg ++ ("abc".toList ++ kustoSuffix), "mydb".toList) :=
  ⟨by decide, by decide, by decide, by decide, by decide, by decide,
    C6_roundtrip "abc".toList "mydb".toList (by decide) (by decide) (by decide)
      (by decide) (by decide) (by decide)⟩

/-- C6 counterexample: the claim as stated (without any restriction on
percent characters) fails. The database string `"x%3By"` contains neither
`";Server="` nor `";Database="`, yet `_parse_connection_str` of the
assembled connection string returns database `"x;y"`, because `unquote`
decodes the `%3B` escape before splitting — not the original `"x%3By"`. -/
theorem C6_counterexample :
    (¬ srvSep <:+: "a".toList) ∧ (¬ dbSep <:+: "a".toList) ∧
    (¬ srvSep <:+: "x%3By".toList) ∧ (¬ dbSep <:+: "x%3By".toList) ∧
    parse_connection_str (assembleConnStr "a".toList "x%3By".toList) ≠
      some (httpsSeg ++ ("a".toList ++ kustoSuffix), "x%3By".toList) := by
  refine ⟨by decide, by decide, by decide, by decide, ?_⟩
  have hu : unquote (assembleConnStr "a".toList "x%3By".toList) =
      assembleConnStr "a".toList "x;y".toList := by
    have hshape : assembleConnStr "a".toList "x%3By".toList =
        (driverSeg ++ (srvSep ++ ("a".toList ++ (kustoSuffix ++ dbSep)))) ++
          "x%3By".toList := by
      simp [assembleConnStr, List.append_assoc]
    have hshape2 : assembleConnStr "a".toList "x;y".toList =
        (driverSeg ++ (srvSep ++ ("a".toList ++ (kustoSuffix ++ dbSep)))) ++
          "x;y".toList := by
      simp [assembleConnStr, List.append_assoc]
    rw [hshape, hshape2, unquote_append_of_no_pct _ _ (by decide)]
    have hxy : unquote "x%3By".toList = "x;y".toList := by decide
    rw [hxy]
  have hp := parse_connection_str_eval (assembleConnStr "a".toList "x%3By".toList)
    "a".toList "x;y".toList hu (by decide) (by decide) (by decide)
  rw [hp]
  decide

/-! ## Claim C8 -/

/-- C8 counterexample: the claim asserts that no operation, including the
`do_connect` hook registered by the dialect constructor, stores state on the
dialect object persisting across calls. In fact the hook stores the Kusto
client, server URL and database name on the dialect object: starting from
the freshly-constructed state (all attributes `None`), one connect call
leaves the dialect state changed. -/
theorem C8_counterexample :
    (dialect_provide_token "t".toList
          { _kusto_client := none, _server := none, _database := none }
          [assembleConnStr "abc".toList "mydb".toList] []).map (fun r => r.1) =
      some { _kusto_client := some { url := httpsSeg ++ ("abc".toList ++ kustoSuffix),
                                     tokenValue := "t".toList },
             _server := some (httpsSeg ++ ("abc".toList ++ kustoSuffix)),
             _database := some "mydb".toList } ∧
    some { _kusto_client := some { url := httpsSeg ++ ("abc".toList ++ kustoSuffix),
                                   tokenValue := "t".toList },
           _server := some (httpsSeg ++ ("abc".toList ++ kustoSuffix)),
           _database := some "mydb".toList } ≠
      some ({ _kusto_client := none, _server := none, _database := none } :
        DialectState) := by
  constructor
  · have hra : replaceAll trustedConnectionPat []
        (assembleConnStr "abc".toList "mydb".toList) =
        assembleConnStr "abc".toList "mydb".toList :=
      replaceAll_of_not_infix trustedConnectionPat [] _ (by decide)
    have hp := parse_connection_str_eval (assembleConnStr "abc".toList "mydb".toList)
      "abc".toList "mydb".toList
      (unquote_of_no_pct _ (by decide)) (by decide) (by decide) (by decide)
    have he : encode_token "t".toList = some (1256, [2, 0, 0, 0, 116, 0]) := by decide
    simp only [dialect_provide_token, hra, hp, he, Option.map_some']
  · simp

/-- C8 (amended): the `do_connect` hook registered by the dialect constructor
does store shared mutable state on the dialect object that persists across
calls: on a successful connect it sets `_server` and `_database` to the
parsed connection string and `_kusto_client` to a client for that server
(overwriting whatever state the dialect object held), besides updating the
connection arguments and parameters as in C2. -/
theorem C8_dialect_state_mutation (token : List Char) (self : DialectState)
    (a : List Char) (rest : List (List Char)) (cparams : Params)
    (sd : List Char × List Char) (d : Nat × List Nat)
    (hp : parse_connection_str (replaceAll trustedConnectionPat [] a) = some sd)
    (he : encode_token token = some d) :
    dialect_provide_token token self (a :: rest) cparams =
      some ({ _kusto_client := some { url := sd.1, tokenValue := token },
              _server := some sd.1, _database := some sd.2 },
            replaceAll trustedConnectionPat [] a :: rest,
            setParam cparams "attrs_before" (ParamValue.tokenDict d.1 d.2)) := by
  simp [dialect_provide_token, hp, he]

theorem C8_witness :
    parse_connection_str (replaceAll trustedConnectionPat []
        (assembleConnStr "abc".toList "mydb".toList)) =
      some (httpsSeg ++ ("abc".toList ++ kustoSuffix), "mydb".toList) ∧
    encode_token "t".toList = some (1256, [2, 0, 0, 0, 116, 0]) ∧
    dialect_provide_token "t".toList
        { _kusto_client := none, _server := some "old".toList, _database := none }
        [assembleConnStr "abc".toList "mydb".toList] [] =
      some ({ _kusto_client := some { url := httpsSeg ++ ("abc".toList ++ kustoSuffix),
                                      tokenValue := "t".toList },
              _server := some (httpsSeg ++ ("abc".toList ++ kustoSuffix)),
              _database := some "mydb".toList },
            replaceAll trustedConnectionPat []
                (assembleConnStr "abc".toList "mydb".toList) :: [],
            setParam [] "attrs_before" (ParamValue.tokenDict 1256 [2, 0, 0, 0, 116, 0])) := by
  have hra : replaceAll trustedConnectionPat []
      (assembleConnStr "abc".toList "mydb".toList) =
      assembleConnStr "abc".toList "mydb".toList :=
    replaceAll_of_not_infix trustedConnectionPat [] _ (by decide)
  have hp : parse_connection_str (replaceAll trustedConnectionPat []
      (assembleConnStr "abc".toList "mydb".toList)) =
      some (httpsSeg ++ ("abc".toList ++ kustoSuffix), "mydb".toList) := by
    rw [hra]
    exact parse_connection_str_eval _ "abc".toList "mydb".toList
      (unquote_of_no_pct _ (by decide)) (by decide) (by decide) (by decide)
  refine ⟨hp, by decide, ?_⟩
  exact C8_dialect_state_mutation "t".toList
    { _kusto_client := none, _server := some "old".toList, _database := none }
    (assembleConnStr "abc".toList "mydb".toList) [] []
    (httpsSeg ++ ("abc".toList ++ kustoSuffix), "mydb".toList)
    (1256, [2, 0, 0, 0, 116, 0]) hp (by decide)
